import Mathlib

/-!
Verification development for the PatientExtraction repository.

The Python source is shallowly embedded as follows:
* a patient's medical record (a `dict` mapping a code string to a
  chronologically ordered list of association dictionaries) becomes an
  association list `List (String × List Assoc)`;
* an association dictionary `{"Date": d, "Val1": v1, "Val2": v2, "Text": t}`
  becomes the structure `Assoc`; dates (which are only ever compared and
  rendered) are modelled as integers (an ordinal day number), and the float
  fields `Val1`/`Val2` are modelled as rationals;
* Python's `min(xs, key=f)` / `max(xs, key=f)` (which return the first
  element attaining the minimum/maximum, and raise `ValueError` on an empty
  sequence) become `pyMinBy` / `pyMaxBy` returning `Option`;
* code that can raise is embedded with `Option`, `none` standing for the
  raised exception.
-/

/-- One association between a patient and a code: the embedding of the Python
dictionary `{"Date": …, "Val1": …, "Val2": …, "Text": …}`. -/
structure Assoc where
  date : Int
  val1 : ℚ
  val2 : ℚ
  text : String
deriving DecidableEq, Repr

instance : Inhabited Assoc := ⟨⟨0, 0, 0, ""⟩⟩

/-- A patient's medical record: a mapping from code string to the list of
associations for that code (embedding of the Python `dict`, keeping the
dict's insertion/iteration order). -/
abbrev MedRecord := List (String × List Assoc)

/-- The left fold performed by Python's `min(iterable, key=key)` once the
first element `best` has been taken: the running best is replaced only when a
strictly smaller key is seen, so the final result is the first element
attaining the minimum key. -/
def pyFoldMin {α β : Type} [LinearOrder β] (key : α → β) (best : α) : List α → α
  | [] => best
  | y :: ys => pyFoldMin key (if key y < key best then y else best) ys

/-- The left fold performed by Python's `max(iterable, key=key)`: the running
best is replaced only when a strictly larger key is seen. -/
def pyFoldMax {α β : Type} [LinearOrder β] (key : α → β) (best : α) : List α → α
  | [] => best
  | y :: ys => pyFoldMax key (if key y > key best then y else best) ys

/-- Python's `min(xs, key=key)`; `none` models the `ValueError` raised on an
empty sequence. -/
def pyMinBy {α β : Type} [LinearOrder β] (key : α → β) : List α → Option α
  | [] => none
  | x :: xs => some (pyFoldMin key x xs)

/-- Python's `max(xs, key=key)`; `none` models the `ValueError` raised on an
empty sequence. -/
def pyMaxBy {α β : Type} [LinearOrder β] (key : α → β) : List α → Option α
  | [] => none
  | x :: xs => some (pyFoldMax key x xs)

/-- `r` is the first element of `l` attaining the minimal `key`: everything
listed before `r` has a strictly larger key, and nothing in `l` has a smaller
key.  This is exactly the deterministic tie-breaking behaviour of Python's
`min(l, key=key)`. -/
def FirstArgmin {α β : Type} [LinearOrder β] (key : α → β) (l : List α) (r : α) : Prop :=
  ∃ l₁ l₂, l = l₁ ++ r :: l₂ ∧ (∀ y ∈ l₁, key r < key y) ∧ ∀ y ∈ l, key r ≤ key y

/-- `r` is the first element of `l` attaining the maximal `key`. -/
def FirstArgmax {α β : Type} [LinearOrder β] (key : α → β) (l : List α) (r : α) : Prop :=
  ∃ l₁ l₂, l = l₁ ++ r :: l₂ ∧ (∀ y ∈ l₁, key y < key r) ∧ ∀ y ∈ l, key y ≤ key r

theorem pyFoldMin_first_argmin {α β : Type} [LinearOrder β] (key : α → β) :
    ∀ (l : List α) (b : α), FirstArgmin key (b :: l) (pyFoldMin key b l) := by
  intro l
  induction l with
  | nil =>
      intro b
      refine ⟨[], [], rfl, ?_, ?_⟩
      · intro y hy; cases hy
      · intro y hy
        rcases List.mem_singleton.mp hy with rfl
        exact le_refl _
  | cons y ys ih =>
      intro b
      simp only [pyFoldMin]
      by_cases h : key y < key b
      · simp only [if_pos h]
        rcases ih y with ⟨l₁, l₂, hdecomp, hpre, hall⟩
        have hry : key (pyFoldMin key y ys) ≤ key y :=
          hall y (List.mem_cons_self _ _)
        refine ⟨b :: l₁, l₂, by rw [List.cons_append, hdecomp], ?_, ?_⟩
        · intro z hz
          rcases List.mem_cons.mp hz with rfl | hz'
          · exact lt_of_le_of_lt hry h
          · exact hpre z hz'
        · intro z hz
          rcases List.mem_cons.mp hz with rfl | hz'
          · exact le_of_lt (lt_of_le_of_lt hry h)
          · exact hall z hz'
      · simp only [if_neg h]
        push_neg at h
        rcases ih b with ⟨l₁, l₂, hdecomp, hpre, hall⟩
        cases l₁ with
        | nil =>
            simp only [List.nil_append] at hdecomp
            injection hdecomp with hb hys
            refine ⟨[], y :: ys, ?_, ?_, ?_⟩
            · rw [List.nil_append, ← hb]
            · intro z hz; cases hz
            · intro z hz
              rw [← hb]
              rcases List.mem_cons.mp hz with rfl | hz'
              · exact le_refl _
              rcases List.mem_cons.mp hz' with rfl | hz''
              · exact h
              · have := hall z (List.mem_cons_of_mem _ hz'')
                rw [← hb] at this
                exact this
        | cons a l₁' =>
            rw [List.cons_append] at hdecomp
            injection hdecomp with hab hys
            subst hab
            refine ⟨b :: y :: l₁', l₂, by simp only [List.cons_append]; rw [← hys], ?_, ?_⟩
            · intro z hz
              rcases List.mem_cons.mp hz with rfl | hz'
              · exact hpre z (List.mem_cons_self _ _)
              rcases List.mem_cons.mp hz' with rfl | hz''
              · exact lt_of_lt_of_le (hpre b (List.mem_cons_self _ _)) h
              · exact hpre z (List.mem_cons_of_mem _ hz'')
            · intro z hz
              rcases List.mem_cons.mp hz with rfl | hz'
              · exact le_of_lt (hpre z (List.mem_cons_self _ _))
              rcases List.mem_cons.mp hz' with rfl | hz''
              · exact le_trans (le_of_lt (hpre b (List.mem_cons_self _ _))) h
              · exact hall z (List.mem_cons_of_mem _ hz'')

theorem pyMinBy_first_argmin {α β : Type} [LinearOrder β] (key : α → β)
    (l : List α) (hl : l ≠ []) :
    ∃ r, pyMinBy key l = some r ∧ FirstArgmin key l r := by
  cases l with
  | nil => exact absurd rfl hl
  | cons x xs => exact ⟨pyFoldMin key x xs, rfl, pyFoldMin_first_argmin key xs x⟩

theorem pyFoldMax_eq_dual {α β : Type} [LinearOrder β] (key : α → β) :
    ∀ (l : List α) (b : α),
      pyFoldMax key b l = pyFoldMin (fun a => OrderDual.toDual (key a)) b l := by
  intro l
  induction l with
  | nil => intro b; rfl
  | cons y ys ih =>
      intro b
      simp only [pyFoldMax, pyFoldMin, gt_iff_lt, OrderDual.toDual_lt_toDual, ih]

theorem pyFoldMax_first_argmax {α β : Type} [LinearOrder β] (key : α → β)
    (l : List α) (b : α) : FirstArgmax key (b :: l) (pyFoldMax key b l) := by
  rw [pyFoldMax_eq_dual]
  obtain ⟨l₁, l₂, hd, hpre, hall⟩ :=
    pyFoldMin_first_argmin (fun a => OrderDual.toDual (key a)) l b
  refine ⟨l₁, l₂, hd, ?_, ?_⟩
  · intro y hy
    simpa using hpre y hy
  · intro y hy
    simpa using hall y hy

theorem pyMaxBy_first_argmax {α β : Type} [LinearOrder β] (key : α → β)
    (l : List α) (hl : l ≠ []) :
    ∃ r, pyMaxBy key l = some r ∧ FirstArgmax key l r := by
  cases l with
  | nil => exact absurd rfl hl
  | cons x xs => exact ⟨pyFoldMax key x xs, rfl, pyFoldMax_first_argmax key xs x⟩

theorem FirstArgmin_mem {α β : Type} [LinearOrder β] {key : α → β} {l : List α}
    {r : α} (h : FirstArgmin key l r) : r ∈ l := by
  obtain ⟨l₁, l₂, hd, -, -⟩ := h
  rw [hd]
  exact List.mem_append.mpr (Or.inr (List.mem_cons_self _ _))

theorem FirstArgmax_mem {α β : Type} [LinearOrder β] {key : α → β} {l : List α}
    {r : α} (h : FirstArgmax key l r) : r ∈ l := by
  obtain ⟨l₁, l₂, hd, -, -⟩ := h
  rw [hd]
  exact List.mem_append.mpr (Or.inr (List.mem_cons_self _ _))

/-! ## record_selector.py -/

/-- `all_selector(records)`: returns `dict(records)`, i.e. a copy of the
record. -/
def all_selector (records : MedRecord) : MedRecord := records

/-- The key used by `earliest_selector`: `x[1][0]["Date"]`, the date of the
first (chronologically earliest) association of the code.  `headI` embeds the
indexing `[0]`, which in Python assumes the list is non-empty. -/
def entryFirstDate (e : String × List Assoc) : Int := e.2.headI.date

/-- The key used by `latest_selector`: `x[1][-1]["Date"]`, the date of the
last (chronologically latest) association of the code. -/
def entryLastDate (e : String × List Assoc) : Int := (e.2.getLastD default).date

/-- `earliest_selector(records)`: `min(records.items(), key=lambda x:
x[1][0]["Date"])`, then `{earliestCode: [earliestRecord[1][0]]}`.  `none`
models the `ValueError` Python raises when `records` is empty. -/
def earliest_selector (records : MedRecord) : Option MedRecord :=
  match pyMinBy entryFirstDate records with
  | none => none
  | some (c, os) => some [(c, [os.headI])]

/-- `latest_selector(records)`: `max(records.items(), key=lambda x:
x[1][-1]["Date"])`, then `{latestCode: [latestRecord[1][-1]]}`. -/
def latest_selector (records : MedRecord) : Option MedRecord :=
  match pyMaxBy entryLastDate records with
  | none => none
  | some (c, os) => some [(c, [os.getLastD default])]

/-- Python's `max` over a list of numbers (`max([i[valType] for i in x[1]])`);
the `0` default models the `ValueError` case of an empty list, which the
selectors never reach. -/
def pyListMax (l : List ℚ) : ℚ :=
  match l with
  | [] => 0
  | x :: xs => pyFoldMax id x xs

/-- Python's `min` over a list of numbers. -/
def pyListMin (l : List ℚ) : ℚ :=
  match l with
  | [] => 0
  | x :: xs => pyFoldMin id x xs

/-- `max_selector(valType)`: the closure's field-string parameter `valType`
is modelled as the projection `val : Assoc → ℚ` (`Val1` or `Val2`).  It picks
`max(records.items(), key=lambda x: max([i[valType] for i in x[1]]))`, then
within that entry `max(maxRecord[1], key=lambda x: x[valType])`. -/
def max_selector (val : Assoc → ℚ) (records : MedRecord) : Option MedRecord :=
  match pyMaxBy (fun e => pyListMax (e.2.map val)) records with
  | none => none
  | some (c, os) =>
    match pyMaxBy val os with
    | none => none
    | some a => some [(c, [a])]

/-- `min_selector(valType)`: symmetric minimum of `max_selector`. -/
def min_selector (val : Assoc → ℚ) (records : MedRecord) : Option MedRecord :=
  match pyMinBy (fun e => pyListMin (e.2.map val)) records with
  | none => none
  | some (c, os) =>
    match pyMinBy val os with
    | none => none
    | some a => some [(c, [a])]

/-- The deterministic result characterisation of the single-pick selection
modes: each selector returns the first entry (in the record's dict
iteration/insertion order) attaining the optimum of its criterion, and for
the value selectors, within that entry the first association attaining the
entry's optimal value. -/
def SelectorCharacterisation (records : MedRecord) : Prop :=
  (∃ c os, FirstArgmin entryFirstDate records (c, os) ∧
    earliest_selector records = some [(c, [os.headI])]) ∧
  (∃ c os, FirstArgmax entryLastDate records (c, os) ∧
    latest_selector records = some [(c, [os.getLastD default])]) ∧
  (∀ val : Assoc → ℚ,
    (∃ c os a, FirstArgmax (fun e => pyListMax (e.2.map val)) records (c, os) ∧
      FirstArgmax val os a ∧ max_selector val records = some [(c, [a])]) ∧
    (∃ c os a, FirstArgmin (fun e => pyListMin (e.2.map val)) records (c, os) ∧
      FirstArgmin val os a ∧ min_selector val records = some [(c, [a])]))

/-- C1 (amended): every single-pick selection mode (earliest, latest,
max1/max2, min1/min2 — the value modes covering both value projections via
`val`) is deterministic, returning the unique entry characterised by
`SelectorCharacterisation`: ties on the selection criterion are broken by the
code whose entry appears first in the record's dict insertion/iteration
order (which is the alphabetically smaller code only when the record's keys
are listed in ascending order); the earliest selector returns the (code,
occurrence) pair with the minimum first date, ties going to the
first-listed code. -/
theorem selector_modes_first_in_record_order
    (records : MedRecord) (h1 : records ≠ [])
    (h2 : ∀ e ∈ records, e.2 ≠ []) :
    SelectorCharacterisation records := by
  refine ⟨?_, ?_, ?_⟩
  · obtain ⟨r, heq, hfa⟩ := pyMinBy_first_argmin entryFirstDate records h1
    obtain ⟨c, os⟩ := r
    exact ⟨c, os, hfa, by simp only [earliest_selector, heq]⟩
  · obtain ⟨r, heq, hfa⟩ := pyMaxBy_first_argmax entryLastDate records h1
    obtain ⟨c, os⟩ := r
    exact ⟨c, os, hfa, by simp only [latest_selector, heq]⟩
  · intro val
    constructor
    · obtain ⟨r, heq, hfa⟩ :=
        pyMaxBy_first_argmax (fun e => pyListMax (e.2.map val)) records h1
      obtain ⟨c, os⟩ := r
      have hos : os ≠ [] := h2 (c, os) (FirstArgmax_mem hfa)
      obtain ⟨a, heq2, hfa2⟩ := pyMaxBy_first_argmax val os hos
      exact ⟨c, os, a, hfa, hfa2, by simp only [max_selector, heq, heq2]⟩
    · obtain ⟨r, heq, hfa⟩ :=
        pyMinBy_first_argmin (fun e => pyListMin (e.2.map val)) records h1
      obtain ⟨c, os⟩ := r
      have hos : os ≠ [] := h2 (c, os) (FirstArgmin_mem hfa)
      obtain ⟨a, heq2, hfa2⟩ := pyMinBy_first_argmin val os hos
      exact ⟨c, os, a, hfa, hfa2, by simp only [min_selector, heq, heq2]⟩

/-- A record whose two codes tie on every selection criterion and whose dict
insertion order lists the alphabetically larger code "B" first. -/
def c1CexRecords : MedRecord := [("B", [⟨0, 0, 0, ""⟩]), ("A", [⟨0, 0, 0, ""⟩])]

/-- C1 counterexample: on a record listing code "B" before code "A" with
identical dates, the earliest selector returns code "B", not the
alphabetically smaller "A" — ties on the selection criterion are NOT broken
by choosing the alphabetically smaller code string. -/
theorem earliest_selector_tie_not_alphabetical :
    entryFirstDate ("B", [(⟨0, 0, 0, ""⟩ : Assoc)]) =
      entryFirstDate ("A", [(⟨0, 0, 0, ""⟩ : Assoc)]) ∧
    ("A" : String).data < "B".data ∧
    earliest_selector c1CexRecords = some [("B", [⟨0, 0, 0, ""⟩])] ∧
    earliest_selector c1CexRecords ≠ some [("A", [⟨0, 0, 0, ""⟩])] := by
  refine ⟨rfl, by decide, rfl, by decide⟩

/-- C1 witness: the characterisation instantiated at the concrete tying
record. -/
theorem selector_modes_first_in_record_order_witness :
    SelectorCharacterisation c1CexRecords :=
  selector_modes_first_in_record_order c1CexRecords (by decide) (by decide)

/-! ## Restrictions (restriction_comparator_generators.py and the
restriction-application loop of patient_extraction.select_associations) -/

/-- A restriction predicate over one attribute of an association, embedding
one entry of the Python `conditionRestrictions` dict: the dict key (the
attribute name `"Date"`, `"Val1"` or `"Val2"` used to index `l[i]`) is
carried by the constructor, the stored comparator closure by the function. -/
inductive Restriction where
  | onDate (p : Int → Bool)
  | onVal1 (p : ℚ → Bool)
  | onVal2 (p : ℚ → Bool)

/-- Applying a restriction `j` to an association `l`: the Python call
`j(l[i])` for the restriction's attribute `i`. -/
def Restriction.holds : Restriction → Assoc → Bool
  | .onDate p, a => p a.date
  | .onVal1 p, a => p a.val1
  | .onVal2 p, a => p a.val2

/-- The restriction-application loop (patient_extraction.py lines 251-256):
for each restriction, rebuild the record keeping only the associations the
restriction accepts.  The dict-of-lists of restrictions is flattened into a
single list, each entry carrying its attribute. -/
def applyRestrictions (rs : List Restriction) (recs : MedRecord) : MedRecord :=
  rs.foldl (fun acc r => acc.map (fun e => (e.1, e.2.filter (fun a => r.holds a)))) recs

/-- Dropping the codes left with no associations (patient_extraction.py
line 260). -/
def dropEmptyCodes (recs : MedRecord) : MedRecord :=
  recs.filter (fun e => !e.2.isEmpty)

/-- The number of surviving occurrences: total association count over all
codes. -/
def countOccurrences (recs : MedRecord) : Nat :=
  (recs.map (fun e => e.2.length)).sum

theorem filter_filter_and {α : Type} (p q : α → Bool) (l : List α) :
    (l.filter p).filter q = l.filter (fun a => p a && q a) := by
  induction l with
  | nil => rfl
  | cons x xs ih =>
      by_cases hp : p x <;> by_cases hq : q x <;>
        simp [List.filter_cons, hp, hq, ih]

theorem applyRestrictions_eq_filter_all (rs : List Restriction) :
    ∀ recs : MedRecord,
      applyRestrictions rs recs =
        recs.map (fun e => (e.1, e.2.filter (fun a => rs.all (fun r => r.holds a)))) := by
  induction rs with
  | nil =>
      intro recs
      simp [applyRestrictions]
  | cons r rs ih =>
      intro recs
      have step : applyRestrictions (r :: rs) recs =
          applyRestrictions rs (recs.map (fun e => (e.1, e.2.filter (fun a => r.holds a)))) := rfl
      rw [step, ih, List.map_map]
      apply List.map_congr_left
      intro e _
      simp only [Function.comp_apply, filter_filter_and, List.all_cons]

theorem length_filter_mono {α : Type} (p q : α → Bool)
    (h : ∀ a, p a = true → q a = true) :
    ∀ l : List α, (l.filter p).length ≤ (l.filter q).length := by
  intro l
  induction l with
  | nil => exact le_refl _
  | cons x xs ih =>
      cases hp : p x with
      | true =>
          have hq : q x = true := h x hp
          simp only [List.filter_cons, hp, hq, if_true, List.length_cons]
          omega
      | false =>
          cases hq : q x <;> simp only [List.filter_cons, hp, hq] <;> simp <;> omega

theorem countOccurrences_dropEmptyCodes (recs : MedRecord) :
    countOccurrences (dropEmptyCodes recs) = countOccurrences recs := by
  induction recs with
  | nil => rfl
  | cons e es ih =>
      by_cases he : e.2.isEmpty
      · have hlen : e.2.length = 0 := by
          cases h2 : e.2 with
          | nil => rfl
          | cons a as => rw [h2] at he; simp [List.isEmpty] at he
        simp only [dropEmptyCodes, countOccurrences, List.filter_cons, he, Bool.not_true,
          List.map_cons, List.sum_cons, hlen] at *
        simpa [dropEmptyCodes, countOccurrences] using ih
      · have he' : (!e.2.isEmpty) = true := by simp [he]
        simp only [dropEmptyCodes, countOccurrences, List.filter_cons, he', if_true,
          List.map_cons, List.sum_cons] at *
        omega

/-- C7: an occurrence survives the restriction-application loop followed by
the empty-code drop if and only if it satisfies every restriction (logical
AND across all attributes and all restrictions); consequently filtering is
monotonic-shrinking: any superset of restrictions leaves at most as many
surviving occurrences. -/
theorem restriction_filtering_iff_and_monotonic
    (recs : MedRecord) (rs rs' : List Restriction) (h : rs ⊆ rs') :
    (∀ c occ,
      (∃ os', (c, os') ∈ dropEmptyCodes (applyRestrictions rs recs) ∧ occ ∈ os') ↔
      (∃ os, (c, os) ∈ recs ∧ occ ∈ os ∧ ∀ r ∈ rs, r.holds occ = true)) ∧
    countOccurrences (dropEmptyCodes (applyRestrictions rs' recs)) ≤
      countOccurrences (dropEmptyCodes (applyRestrictions rs recs)) := by
  constructor
  · intro c occ
    rw [applyRestrictions_eq_filter_all]
    constructor
    · rintro ⟨os', hmem, hocc⟩
      have hmem' : (c, os') ∈
          recs.map (fun e => (e.1, e.2.filter (fun a => rs.all (fun r => r.holds a)))) := by
        exact List.mem_of_mem_filter hmem
      rcases List.mem_map.mp hmem' with ⟨e, he, heq⟩
      have hc : e.1 = c := congrArg Prod.fst heq
      have hos : e.2.filter (fun a => rs.all (fun r => r.holds a)) = os' :=
        congrArg Prod.snd heq
      rw [← hos] at hocc
      rcases List.mem_filter.mp hocc with ⟨hocc2, hall⟩
      refine ⟨e.2, ?_, hocc2, ?_⟩
      · rw [← hc]; exact he
      · intro r hr
        exact List.all_eq_true.mp hall r hr
    · rintro ⟨os, hmem, hocc, hall⟩
      refine ⟨os.filter (fun a => rs.all (fun r => r.holds a)), ?_, ?_⟩
      · apply List.mem_filter.mpr
        constructor
        · exact List.mem_map.mpr ⟨(c, os), hmem, rfl⟩
        · have : occ ∈ os.filter (fun a => rs.all (fun r => r.holds a)) :=
            List.mem_filter.mpr ⟨hocc, List.all_eq_true.mpr hall⟩
          simp only [Bool.not_eq_true', List.isEmpty_eq_false_iff_exists_mem]
          exact ⟨occ, this⟩
      · exact List.mem_filter.mpr ⟨hocc, List.all_eq_true.mpr hall⟩
  · rw [countOccurrences_dropEmptyCodes, countOccurrences_dropEmptyCodes,
      applyRestrictions_eq_filter_all, applyRestrictions_eq_filter_all]
    unfold countOccurrences
    rw [List.map_map, List.map_map]
    apply List.sum_le_sum
    intro e _
    simp only [Function.comp_apply]
    apply length_filter_mono
    intro a ha
    rcases List.all_eq_true.mp ha with _
    apply List.all_eq_true.mpr
    intro r hr
    exact List.all_eq_true.mp ha r (h hr)

/-- A concrete value restriction (Val1 at least 1). -/
def c7r1 : Restriction := .onVal1 (fun v => decide (1 ≤ v))

/-- A concrete date restriction (date at least 6). -/
def c7r2 : Restriction := .onDate (fun d => decide (6 ≤ d))

/-- A concrete two-occurrence record for the restriction theorems. -/
def c7Recs : MedRecord := [("A", [⟨5, 2, 0, ""⟩, ⟨6, 0, 0, ""⟩])]

/-- C7 witness: the characterisation and monotonicity instantiated at a
concrete record with restriction list `[c7r1] ⊆ [c7r1, c7r2]`. -/
theorem restriction_filtering_iff_and_monotonic_witness :
    (∀ c occ,
      (∃ os', (c, os') ∈ dropEmptyCodes (applyRestrictions [c7r1] c7Recs) ∧ occ ∈ os') ↔
      (∃ os, (c, os) ∈ c7Recs ∧ occ ∈ os ∧ ∀ r ∈ [c7r1], r.holds occ = true)) ∧
    countOccurrences (dropEmptyCodes (applyRestrictions [c7r1, c7r2] c7Recs)) ≤
      countOccurrences (dropEmptyCodes (applyRestrictions [c7r1] c7Recs)) :=
  restriction_filtering_iff_and_monotonic c7Recs [c7r1] [c7r1, c7r2]
    (by intro a ha; rcases List.mem_singleton.mp ha with rfl; exact List.mem_cons_self _ _)

/-! ## patient_extraction.select_associations (lines 210-308) -/

/-- One iteration of the mode loop of `select_associations` (lines 263-307).
Returns the updated `selectedRecords` (the branches for "earliest",
"latest", "max" and "min" overwrite it with the single selected entry) and
the record stored in `modeSelectedRecords[mode]`.  `none` models the
`ValueError` raised by `min`/`max` on an empty `selectedRecords`.  Note the
source's "latest" branch takes `latestRecord[1][0]` (index 0), and the
"max"/"min" branches compare `x[1][0]["Val1"]` (the first association's
Val1). -/
def modeStep (selRecs : MedRecord) (mode : String) : Option (MedRecord × MedRecord) :=
  if mode = "earliest" then
    match pyMinBy entryFirstDate selRecs with
    | none => none
    | some (c, os) => some ([(c, [os.headI])], [(c, [os.headI])])
  else if mode = "latest" then
    match pyMaxBy entryLastDate selRecs with
    | none => none
    | some (c, os) => some ([(c, [os.headI])], [(c, [os.headI])])
  else if mode = "max" then
    match pyMaxBy (fun e => e.2.headI.val1) selRecs with
    | none => none
    | some (c, os) => some ([(c, [os.headI])], [(c, [os.headI])])
  else if mode = "min" then
    match pyMinBy (fun e => e.2.headI.val1) selRecs with
    | none => none
    | some (c, os) => some ([(c, [os.headI])], [(c, [os.headI])])
  else
    some (selRecs, selRecs)

/-- The mode loop of `select_associations`, threading the mutated
`selectedRecords` through the iterations and accumulating
`modeSelectedRecords` as an association list in mode order. -/
def runModes (selRecs : MedRecord) : List String → Option (List (String × MedRecord))
  | [] => some []
  | m :: ms =>
    match modeStep selRecs m with
    | none => none
    | some (sel', r) =>
      match runModes sel' ms with
      | none => none
      | some rest => some ((m, r) :: rest)

/-- `select_associations(medicalRecord, patientPosCondCodes,
conditionRestrictions, modes)` from patient_extraction.py: copies the
medical record, applies every restriction, drops codes left with no
associations, then runs the mode loop.  (`patientPosCondCodes` is accepted
but, as in the source, never used.)  `none` models an uncaught
`ValueError`. -/
def select_associations (medicalRecord : MedRecord) (patientPosCondCodes : List String)
    (conditionRestrictions : List Restriction) (modes : List String) :
    Option (List (String × MedRecord)) :=
  let _ := patientPosCondCodes
  runModes (dropEmptyCodes (applyRestrictions conditionRestrictions medicalRecord)) modes

/-- A one-code, one-association medical record for the C2 failing input. -/
def c2Mr : MedRecord := [("A", [⟨0, 1, 1, ""⟩])]

/-- A date restriction (date at least 100) that no association of `c2Mr`
satisfies. -/
def c2Rs : List Restriction := [.onDate (fun d => decide (100 ≤ d))]

/-- C2: at the failing input — a record whose only association fails the
restriction, with mode list `["earliest"]` — every occurrence is filtered
out and `select_associations` raises `ValueError` (embedded as `none`)
instead of returning the claimed `{mode: {}}` map: there is no empty-survivor
guard in the source. -/
theorem select_associations_raises_on_empty_survivors :
    dropEmptyCodes (applyRestrictions c2Rs c2Mr) = [] ∧
    select_associations c2Mr ["A"] c2Rs ["earliest"] = none ∧
    (none : Option (List (String × MedRecord))) ≠ some [("earliest", [])] := by
  refine ⟨rfl, rfl, by decide⟩

/-! ## record_outputter.py -/

/-- Python's `"{:.2f}".format(q)`: two-decimal rendering.  The exact digit
string is immaterial to the claims (it appears on both sides of every
equation); the value is scaled by 100, rounded to an integer via
numerator/denominator division, and printed with two decimals. -/
def fmt2 (q : ℚ) : String :=
  let n : Int := (q.num * 200 + (q.den : Int)) / (2 * (q.den : Int))
  let a := n.natAbs
  (if n < 0 then "-" else "") ++ toString (a / 100) ++ "." ++
    (if a % 100 < 10 then "0" else "") ++ toString (a % 100)

/-- `date.strftime("%Y-%m-%d")`: since dates are embedded as ordinal
integers, rendering is `toString`; the exact digits are immaterial to the
claims. -/
def formatDate (d : Int) : String := toString d

/-- Python's `sorted` on a list of numbers: a stable ascending sort. -/
def pySorted (l : List ℚ) : List ℚ := List.insertionSort (· ≤ ·) l

/-- All associations of a record in iteration order:
`[k for j in record.values() for k in j]`. -/
def allAssociations (record : MedRecord) : List Assoc :=
  (record.map (fun e => e.2)).flatten

/-- `code_outputter(record)`: an arbitrary (first-inserted) code, `''` if the
record is empty.  All outputters return `Option String`, `none` standing for
a raised exception. -/
def code_outputter (record : MedRecord) : Option String :=
  match record with
  | [] => some ""
  | e :: _ => some e.1

/-- `count_outputter(record)`: the total association count, `'0'` if empty. -/
def count_outputter (record : MedRecord) : Option String :=
  match record with
  | [] => some "0"
  | _ => some (toString (countOccurrences record))

/-- `date_outputter(record)`: the date of the first association of the first
code (`record[code][0]["Date"]`), `''` if empty; `none` models the
`IndexError` on a first code with no associations. -/
def date_outputter (record : MedRecord) : Option String :=
  match record with
  | [] => some ""
  | e :: _ =>
    match e.2 with
    | [] => none
    | a :: _ => some (formatDate a.date)

/-- `exists_outputter(record)`: `'1'` if the record is non-empty else `'0'`. -/
def exists_outputter (record : MedRecord) : Option String :=
  some (if record.isEmpty then "0" else "1")

/-- `max_outputter(valType)`: the maximum `valType` value over every
association of every code, 2-decimal formatted; `''` if the record is empty;
`none` models the `ValueError` of `max` on no associations. -/
def max_outputter (val : Assoc → ℚ) (record : MedRecord) : Option String :=
  match record with
  | [] => some ""
  | _ =>
    match pyMaxBy val (allAssociations record) with
    | none => none
    | some m => some (fmt2 (val m))

/-- `mean_outputter(valType)`: the mean of every association's `valType`
value; `none` models the `ZeroDivisionError` on no associations. -/
def mean_outputter (val : Assoc → ℚ) (record : MedRecord) : Option String :=
  match record with
  | [] => some ""
  | _ =>
    let vs := (allAssociations record).map val
    match vs with
    | [] => none
    | _ => some (fmt2 (vs.sum / vs.length))

/-- `median_outputter(valType)` (record_outputter.py lines 197-245): sort all
values ascending; one value is returned directly; otherwise the mean of the
two middle values for an even count and the exact middle value for an odd
count. -/
def median_outputter (val : Assoc → ℚ) (record : MedRecord) : Option String :=
  match record with
  | [] => some ""
  | _ =>
    let vs := pySorted ((allAssociations record).map val)
    if vs.length = 1 then some (fmt2 vs.headI)
    else
      let middleIndex := vs.length / 2
      if vs.length % 2 = 0 then
        some (fmt2 (((vs.drop (middleIndex - 1)).take 2).sum / 2))
      else
        some (fmt2 (vs.getD middleIndex 0))

/-- `min_outputter(valType)`: symmetric minimum of `max_outputter`. -/
def min_outputter (val : Assoc → ℚ) (record : MedRecord) : Option String :=
  match record with
  | [] => some ""
  | _ =>
    match pyMinBy val (allAssociations record) with
    | none => none
    | some m => some (fmt2 (val m))

/-- `value_outputter(valType)`: the first code's first association's value
(`record[code][0][valType]`), 2-decimal formatted; `''` if empty. -/
def value_outputter (val : Assoc → ℚ) (record : MedRecord) : Option String :=
  match record with
  | [] => some ""
  | e :: _ =>
    match e.2 with
    | [] => none
    | a :: _ => some (fmt2 (val a))

/-- C4: on the empty reduced record every output method returns without
raising: `count` and `exists` return `'0'`, all the others return `''`. -/
theorem outputters_empty_record_null_safe :
    code_outputter [] = some "" ∧
    count_outputter [] = some "0" ∧
    date_outputter [] = some "" ∧
    exists_outputter [] = some "0" ∧
    max_outputter (fun a => a.val1) [] = some "" ∧
    max_outputter (fun a => a.val2) [] = some "" ∧
    mean_outputter (fun a => a.val1) [] = some "" ∧
    mean_outputter (fun a => a.val2) [] = some "" ∧
    median_outputter (fun a => a.val1) [] = some "" ∧
    median_outputter (fun a => a.val2) [] = some "" ∧
    min_outputter (fun a => a.val1) [] = some "" ∧
    min_outputter (fun a => a.val2) [] = some "" ∧
    value_outputter (fun a => a.val1) [] = some "" ∧
    value_outputter (fun a => a.val2) [] = some "" := by
  exact ⟨rfl, rfl, rfl, rfl, rfl, rfl, rfl, rfl, rfl, rfl, rfl, rfl, rfl, rfl⟩

/-- The claimed median: after ascending sort, the mean of the two middle
values when the count is even, and the exact middle value when the count is
odd (stated from the claim for comparison with `median_outputter`). -/
def claimMedian (values : List ℚ) : ℚ :=
  if (pySorted values).length % 2 = 0 then
    ((pySorted values).getD ((pySorted values).length / 2 - 1) 0 +
      (pySorted values).getD ((pySorted values).length / 2) 0) / 2
  else (pySorted values).getD ((pySorted values).length / 2) 0

theorem sum_take_two_drop (l : List ℚ) : ∀ i, i + 1 < l.length →
    ((l.drop i).take 2).sum = l.getD i 0 + l.getD (i + 1) 0 := by
  induction l with
  | nil => intro i h; simp at h
  | cons a t ih =>
      intro i h
      cases i with
      | zero =>
          cases t with
          | nil => simp at h
          | cons b t' => simp [List.getD]
      | succ j =>
          simp only [List.drop_succ_cons, List.getD_cons_succ]
          exact ih j (by simpa using h)

/-- C9: on a record with at least one code, each code carrying at least one
association (the shape of every reduced record), the median output method
returns the 2-decimal rendering of the claimed median — ascending sort, mean
of the two middle values on an even count, exact middle value on an odd
count — of the values gathered across all codes. -/
theorem median_outputter_is_claim_median (val : Assoc → ℚ) (record : MedRecord)
    (h1 : record ≠ []) (h2 : ∀ e ∈ record, e.2 ≠ []) :
    median_outputter val record =
      some (fmt2 (claimMedian ((allAssociations record).map val))) := by
  obtain ⟨e, rest, rfl⟩ : ∃ e rest, record = e :: rest := by
    cases record with
    | nil => exact absurd rfl h1
    | cons e rest => exact ⟨e, rest, rfl⟩
  have hvals : ((allAssociations (e :: rest)).map val) ≠ [] := by
    have he2 := h2 e (List.mem_cons_self _ _)
    cases ha : e.2 with
    | nil => exact absurd ha he2
    | cons a t =>
        have : a ∈ allAssociations (e :: rest) := by
          simp [allAssociations, ha]
        intro hcontra
        rw [List.map_eq_nil_iff] at hcontra
        rw [hcontra] at this
        cases this
  have hlen : (pySorted ((allAssociations (e :: rest)).map val)).length =
      ((allAssociations (e :: rest)).map val).length :=
    (List.perm_insertionSort _ _).length_eq
  have hpos : 0 < (pySorted ((allAssociations (e :: rest)).map val)).length := by
    rw [hlen]
    exact List.length_pos.mpr hvals
  simp only [median_outputter, claimMedian]
  set vs := pySorted ((allAssociations (e :: rest)).map val) with hvsdef
  by_cases hone : vs.length = 1
  · have : vs.length % 2 = 0 ↔ False := by rw [hone]; simp
    simp only [hone, if_true, this, iff_false]
    obtain ⟨x, hx⟩ : ∃ x, vs = [x] := by
      cases hv : vs with
      | nil => rw [hv] at hone; simp at hone
      | cons x xs =>
          cases hxs : xs with
          | nil => exact ⟨x, rfl⟩
          | cons y ys => rw [hv, hxs] at hone; simp at hone
    rw [hx]
    simp [List.getD]
  · simp only [hone, if_false]
    by_cases heven : vs.length % 2 = 0
    · have h2le : 2 ≤ vs.length := by omega
      have hmid : 1 ≤ vs.length / 2 := by omega
      have hmidlt : vs.length / 2 < vs.length := by omega
      have hsum : ((vs.drop (vs.length / 2 - 1)).take 2).sum =
          vs.getD (vs.length / 2 - 1) 0 + vs.getD (vs.length / 2) 0 := by
        have := sum_take_two_drop vs (vs.length / 2 - 1) (by omega)
        rwa [Nat.sub_add_cancel hmid] at this
      simp only [heven, if_true, hsum]
    · simp only [heven, if_false]

/-- A two-association record for the median witness (values 3 and 1, so the
even-count branch is exercised). -/
def c9Rec : MedRecord := [("A", [⟨0, 3, 0, ""⟩, ⟨1, 1, 0, ""⟩])]

/-- C9 witness: the median theorem instantiated at a concrete two-value
record. -/
theorem median_outputter_is_claim_median_witness :
    median_outputter (fun a => a.val1) c9Rec =
      some (fmt2 (claimMedian ((allAssociations c9Rec).map (fun a => a.val1)))) :=
  median_outputter_is_claim_median (fun a => a.val1) c9Rec (by decide)
    (by intro e he; rcases List.mem_singleton.mp he with rfl; decide)

/-! ## restriction_comparator_generators.py and
annotate_case_definitions.py -/

/-- `value_generator(comparatorValue, comparison)`: returns the closure
`value_comparator(value) = comparison(value, comparatorValue)` — the tested
value is always passed on the left, the reference value on the right; the
generator never swaps operands. -/
def value_generator (comparatorValue : ℚ) (comparison : ℚ → ℚ → Bool) : ℚ → Bool :=
  fun value => comparison value comparatorValue

/-- The operator table `conf.validChoices["Operators"]`: token to comparison
function (`operator.lt/le/gt/ge`); unknown tokens (a `KeyError` in Python)
map to the constantly-false comparison, which no theorem relies on. -/
def opEval (tok : String) : ℚ → ℚ → Bool :=
  if tok = "<" then fun a b => decide (a < b)
  else if tok = "<=" then fun a b => decide (a ≤ b)
  else if tok = ">" then fun a b => decide (b < a)
  else if tok = ">=" then fun a b => decide (b ≤ a)
  else fun _ _ => false

/-- The four valid value-restriction operator tokens. -/
def validOperatorTokens : List String := ["<", "<=", ">", ">="]

/-- `chunks[1].translate({ord('>'): '<', ord('<'): '>'})`: swap every `<`
character with `>` and vice versa. -/
def flipChars (s : String) : String :=
  String.mk (s.data.map (fun c => if c = '>' then '<' else if c = '<' then '>' else c))

/-- Python's `str.capitalize()`: first character upper-cased, the rest
lower-cased. -/
def pyCapitalize (s : String) : String :=
  match s.data with
  | [] => ""
  | c :: cs => String.mk (c.toUpper :: cs.map Char.toLower)

/-- Digits of a decimal literal to a natural number. -/
def digitsToNat (l : List Char) : Nat :=
  l.foldl (fun n c => n * 10 + (c.toNat - '0'.toNat)) 0

/-- Python's `float()` on a plain decimal literal (optional sign, digits,
optional fractional part); `none` models the `ValueError` on anything else.
Exotic accepted spellings (exponents, `inf`, `nan`) are outside the grammar
of case-definition files and are not modelled. -/
def parseFloat? (s : String) : Option ℚ :=
  let signed : ℚ × List Char :=
    match s.data with
    | '-' :: r => (-1, r)
    | '+' :: r => (1, r)
    | r => (1, r)
  let intPart := signed.2.takeWhile Char.isDigit
  let after := signed.2.drop intPart.length
  match after with
  | [] =>
    if intPart = [] then none
    else some (signed.1 * digitsToNat intPart)
  | '.' :: frac =>
    if frac.all Char.isDigit ∧ (intPart ≠ [] ∨ frac ≠ []) then
      some (signed.1 * ((digitsToNat intPart : ℚ) +
        (digitsToNat frac : ℚ) / ((10 : ℚ) ^ frac.length)))
    else none
  | _ => none

/-- `isFirstElemNumeric`: whether `float(chunks[0])` succeeds. -/
def isNumericTok (s : String) : Bool := (parseFloat? s).isSome

/-- The value-restriction branches of the annotator's control-line handler
(annotate_case_definitions.py lines 169-259), taking the already-computed
`chunks = line[1:].strip().lower().split()`.  Returns the control lines
written to the annotated file; `[]` for lines the handler warns about and
drops.  The `mode`/`out`/`from` branches are handled elsewhere in the
source and also yield `[]` here. -/
def annotate_value_restriction (chunks : List String) : List String :=
  match chunks with
  | [] => []
  | c0 :: _ =>
    if c0 = "mode" ∨ c0 = "out" ∨ c0 = "from" then []
    else if isNumericTok c0 then
      if chunks.length = 3 ∨ chunks.length = 5 then
        if ¬ (chunks.getD 1 "" ∈ validOperatorTokens) ∨
            ¬ (chunks.getD 2 "" ∈ ["val1", "val2"]) ∨
            (chunks.length = 5 ∧ (¬ (chunks.getD 3 "" ∈ validOperatorTokens) ∨
              ¬ isNumericTok (chunks.getD 4 ""))) then []
        else
          (">" ++ pyCapitalize (chunks.getD 2 "") ++ " " ++
            flipChars (chunks.getD 1 "") ++ " " ++ chunks.getD 0 "") ::
          (if chunks.length = 5 then
            [">" ++ pyCapitalize (chunks.getD 2 "") ++ " " ++ chunks.getD 3 "" ++ " " ++
              chunks.getD 4 ""]
          else [])
      else []
    else if c0 = "val1" ∨ c0 = "val2" then
      if chunks.length = 3 then
        if ¬ (chunks.getD 1 "" ∈ validOperatorTokens) ∨
            ¬ isNumericTok (chunks.getD 2 "") then []
        else [">" ++ pyCapitalize (String.intercalate " " chunks)]
      else []
    else []

/-- C5 counterexample: the numeric-first line `3 < val1` (chunks after the
handler's lower-casing and splitting) is canonicalized to `>Val1 > 3` — the
`valN` token is capitalized by `chunks[2].capitalize()` — and not to the
claimed `>val1 > 3`. -/
theorem numeric_first_canonical_not_lowercase :
    annotate_value_restriction ["3", "<", "val1"] = [">Val1 > 3"] ∧
    ([">Val1 > 3"] : List String) ≠ [">val1 > 3"] := by
  constructor
  · rfl
  · decide

/-- C5 (amended): every numeric-first value restriction `# OP valN` is
canonicalized by swapping the operand order and flipping the characters `<`
and `>` in the operator, emitting the three-token form `ValN OP' #` (the
`valN` token capitalized); the value generator builds the predicate
`value ↦ OP'(value, reference)` with the tested value on the left — it never
swaps operands — so the compiled restriction accepts exactly the values the
original line describes. -/
theorem numeric_first_value_restriction_canonicalised
    (s op vn : String)
    (hs : isNumericTok s = true)
    (hop : op ∈ validOperatorTokens)
    (hvn : vn ∈ ["val1", "val2"]) :
    annotate_value_restriction [s, op, vn] =
      [">" ++ pyCapitalize vn ++ " " ++ flipChars op ++ " " ++ s] ∧
    ∀ q v : ℚ, value_generator q (opEval (flipChars op)) v = opEval op q v := by
  constructor
  · have h1 : ¬ (s = "mode" ∨ s = "out" ∨ s = "from") := by
      rintro (rfl | rfl | rfl) <;> exact absurd hs (by decide)
    have hlen3 : ([s, op, vn].length = 3 ∨ [s, op, vn].length = 5) := Or.inl rfl
    have hfe : ¬ (¬ ([s, op, vn].getD 1 "" ∈ validOperatorTokens) ∨
        ¬ ([s, op, vn].getD 2 "" ∈ ["val1", "val2"]) ∨
        ([s, op, vn].length = 5 ∧ (¬ ([s, op, vn].getD 3 "" ∈ validOperatorTokens) ∨
          ¬ isNumericTok ([s, op, vn].getD 4 "")))) := by
      rintro (h | h | h)
      · exact h hop
      · exact h hvn
      · simp at h
    simp only [annotate_value_restriction]
    rw [if_neg h1, if_pos hs, if_pos hlen3, if_neg hfe]
    simp
  · simp only [validOperatorTokens, List.mem_cons, List.mem_singleton,
      List.not_mem_nil, or_false] at hop
    rcases hop with rfl | rfl | rfl | rfl <;>
      · intro q v
        rfl

/-- C5 witness: the amended canonicalization applied to the concrete line
`3 <= val2`. -/
theorem numeric_first_value_restriction_canonicalised_witness :
    annotate_value_restriction ["3", "<=", "val2"] =
      [">" ++ pyCapitalize "val2" ++ " " ++ flipChars "<=" ++ " " ++ "3"] ∧
    ∀ q v : ℚ, value_generator q (opEval (flipChars "<=")) v = opEval "<=" q v :=
  numeric_first_value_restriction_canonicalised "3" "<=" "val2" (by decide) (by decide)
    (by decide)

/-- One character of the class `[a-zA-Z0-9]`. -/
def isAlnumAscii (c : Char) : Bool :=
  (('a' ≤ c ∧ c ≤ 'z') ∨ ('A' ≤ c ∧ c ≤ 'Z') ∨ ('0' ≤ c ∧ c ≤ '9') : Bool)

/-- The optional leading `-` of the regex stripped: the rest of the
characters when the first is `-`, the whole list otherwise. -/
def stripSign (l : List Char) : List Char :=
  match l with
  | [] => []
  | c :: r => if c = '-' then r else c :: r

/-- The regular expression `^-?[a-zA-Z0-9]*\.*%?$` identifying correctly
formatted code lines (annotate_case_definitions.py line 40); since the
character classes are disjoint, greedy matching is the successive
`dropWhile`. -/
def codeMatcher (line : String) : Bool :=
  let afterAlnum := (stripSign line.data).dropWhile isAlnumAscii
  let afterDots := afterAlnum.dropWhile (fun c => c = '.')
  match afterDots with
  | [] => true
  | ['%'] => true
  | _ => false

/-- Whether the code line carries the `-` negative-indicator sign
(`line[0] == '-'`). -/
def isNegCode (line : String) : Bool :=
  match line.data with
  | [] => false
  | c :: _ => c = '-'

/-- The code characters of a code line: the sign stripped, then every `.`
removed (`line.replace('.', '')`). -/
def codeBody (line : String) : List Char :=
  (stripSign line.data).filter (fun c => ¬ c = '.')

/-- The trailing-`%`-stripped code of a wildcard code line. -/
def strippedCode (line : String) : String := String.mk (codeBody line).dropLast

/-- The wildcard expansion: every code of the Description Index (its keys in
iteration order) whose string starts with the stripped prefix
(`i[:len(code)] == code`). -/
def expansionOf (mapCodes : List String) (line : String) : List String :=
  mapCodes.filter (fun i => i.data.take (strippedCode line).data.length = (strippedCode line).data)

/-- The code-line branch of the annotator (annotate_case_definitions.py
lines 260-294): `none` models the warn-and-skip of a line failing
`codeMatcher`; otherwise the sign and the list of codes added to the current
case definition's positive or negative code set (empty when the cleaned code
is empty). -/
def process_code_line (mapCodes : List String) (line : String) :
    Option (Bool × List String) :=
  if codeMatcher line then
    let code := codeBody line
    if code = [] then some (isNegCode line, [])
    else if code.getLastD ' ' = '%' then
      let codeList := mapCodes.filter
        (fun i => i.data.take code.dropLast.length = code.dropLast)
      if codeList = [] then some (isNegCode line, [String.mk code.dropLast])
      else some (isNegCode line, codeList)
    else some (isNegCode line, [String.mk code])
  else none

theorem stripSign_ends_pct {l : List Char} (h : l.getLastD ' ' = '%') :
    ∃ R, stripSign l = R ++ ['%'] := by
  rcases List.eq_nil_or_concat l with rfl | ⟨L, c, rfl⟩
  · exact absurd h (by decide)
  · rw [List.concat_eq_append, List.getLastD_concat] at h
    subst h
    cases L with
    | nil =>
        refine ⟨[], ?_⟩
        simp [stripSign]
    | cons a L' =>
        by_cases ha : a = '-'
        · exact ⟨L', by simp [stripSign, List.cons_append, ha]⟩
        · exact ⟨a :: L', by simp [stripSign, List.cons_append, ha]⟩

theorem codeBody_ends_pct {line : String} (h : line.data.getLastD ' ' = '%') :
    ∃ R, codeBody line = R ++ ['%'] ∧ (codeBody line).dropLast = R := by
  obtain ⟨R, hR⟩ := stripSign_ends_pct h
  refine ⟨R.filter (fun c => ¬ c = '.'), ?_, ?_⟩
  · rw [codeBody, hR, List.filter_append]
    simp
  · rw [codeBody, hR, List.filter_append]
    simp

/-- C6: a code line matching the code grammar and ending in `%` is replaced
by the set of all Description-Index codes starting with the
trailing-%-stripped (sign- and dot-cleaned) prefix; when that expansion is
empty the literal stripped code itself is added instead, so the code is
never silently dropped: the added set is always non-empty. -/
theorem wildcard_code_expansion_fallback (mapCodes : List String) (line : String)
    (hmatch : codeMatcher line = true)
    (hend : line.data.getLastD ' ' = '%') :
    process_code_line mapCodes line =
      some (isNegCode line,
        if expansionOf mapCodes line = [] then [strippedCode line]
        else expansionOf mapCodes line) ∧
    (if expansionOf mapCodes line = [] then [strippedCode line]
     else expansionOf mapCodes line) ≠ [] := by
  obtain ⟨R, hR, hdrop⟩ := codeBody_ends_pct hend
  have hne : codeBody line ≠ [] := by
    rw [hR]
    intro hcontra
    exact absurd (List.append_eq_nil.mp hcontra).2 (by decide)
  have hlast : (codeBody line).getLastD ' ' = '%' := by
    rw [hR, List.getLastD_concat]
  have hexp : expansionOf mapCodes line =
      mapCodes.filter
        (fun i => i.data.take (codeBody line).dropLast.length = (codeBody line).dropLast) := rfl
  constructor
  · rw [process_code_line, if_pos hmatch]
    simp only [if_neg hne, if_pos hlast, hexp]
    by_cases hcl : mapCodes.filter
        (fun i => i.data.take (codeBody line).dropLast.length = (codeBody line).dropLast) = []
    · rw [if_pos hcl, if_pos hcl]
      rfl
    · rw [if_neg hcl, if_neg hcl]
  · by_cases hcl : expansionOf mapCodes line = []
    · rw [if_pos hcl]
      exact List.cons_ne_nil _ _
    · rw [if_neg hcl]
      exact hcl

/-- A concrete Description Index for the wildcard witness. -/
def c6Index : List String := ["C10E", "C10F", "B2"]

/-- C6 witness: the wildcard line `C10%` expanded against a concrete index. -/
theorem wildcard_code_expansion_fallback_witness :
    process_code_line c6Index "C10%" =
      some (isNegCode "C10%",
        if expansionOf c6Index "C10%" = [] then [strippedCode "C10%"]
        else expansionOf c6Index "C10%") ∧
    (if expansionOf c6Index "C10%" = [] then [strippedCode "C10%"]
     else expansionOf c6Index "C10%") ≠ [] :=
  wildcard_code_expansion_fallback c6Index "C10%" (by decide) (by decide)

/-! ## parse_conditions.py -/

/-- Python's `str.split()` on the characters of a control line: split on the
space separator and drop empty tokens. -/
def splitWs (l : List Char) : List String :=
  ((l.splitOn ' ').map String.mk).filter (fun t => ¬ t = "")

/-- Python's `str.isdigit()` for the ASCII strings of a definitions file. -/
def pyIsDigitStr (s : String) : Bool := (¬ s.data = [] : Bool) && s.data.all Char.isDigit

/-- `float(s)` where the caller assumes success; the theorems only use it
where the parse succeeds. -/
def parseFloatD (s : String) : ℚ := (parseFloat? s).getD 0

/-- What the Case-Definition Parser does with one line of the annotated
file. -/
inductive ParseAction where
  | addModes (ms : List String)
  | addOutputs (os : List String)
  | addDateTokens (ds : List String)
  | addValueRestriction (attr : String) (comp : ℚ → Bool)
  | ignoredWarning

/-- The `>`-control-line dispatch of parse_conditions.main (lines 69-106):
`chunks = line[1:].split()`, then the `mode`/`out`/`from` branches, the
numeric-first branch (`chunks[0].isdigit()`), the `v1`/`v2` branch, and the
final warn-and-ignore branch.  `none` models an uncaught
`IndexError`/`KeyError`/`ValueError` on malformed input (missing tokens, an
operator token absent from `validChoices["Operators"]`, a restriction key
absent from the `Restrictions` dict, or an unparsable float). -/
def parse_control_line (line : String) : Option ParseAction :=
  match splitWs (line.data.drop 1) with
  | [] => none
  | c0 :: restChunks =>
    if c0 = "mode" then some (.addModes restChunks)
    else if c0 = "out" then some (.addOutputs restChunks)
    else if c0 = "from" then some (.addDateTokens restChunks)
    else if pyIsDigitStr c0 then
      match restChunks with
      | opTok :: attr :: _ =>
        if opTok ∈ validOperatorTokens then
          if attr = "Date" ∨ attr = "v1" ∨ attr = "v2" then
            some (.addValueRestriction attr (value_generator (parseFloatD c0) (opEval opTok)))
          else none
        else none
      | _ => none
    else if c0 = "v1" ∨ c0 = "v2" then
      match restChunks with
      | opTok :: numTok :: _ =>
        if opTok ∈ validOperatorTokens then
          match parseFloat? numTok with
          | some q => some (.addValueRestriction c0 (value_generator q (opEval opTok)))
          | none => none
        else none
      | _ => none
    else some .ignoredWarning

/-- C8: the canonicalized value-restriction line `val1 < 3.0` is written to
the annotated file as `>Val1 < 3.0`, but the Case-Definition Parser's
dispatch recognises only `v1`/`v2` (or digit-first) value-restriction
tokens, so the line falls through to the warn-and-ignore branch: no
Restriction Comparator is compiled or appended, contradicting the parser's
own docstring, which expects its input to be the annotator's output. -/
theorem annotated_value_restriction_ignored_at_parse_stage :
    annotate_value_restriction ["val1", "<", "3.0"] = [">Val1 < 3.0"] ∧
    parse_control_line ">Val1 < 3.0" = some ParseAction.ignoredWarning ∧
    ∀ attr comp,
      (ParseAction.ignoredWarning ≠ ParseAction.addValueRestriction attr comp) :=
  ⟨by decide, rfl, fun _ _ h => ParseAction.noConfusion h⟩

/-! ## patient_extraction.py driver: main's per-condition gate,
generate_patient_output and the header row -/

/-- `mapConditionToCode[i]`: positive and negative indicator code sets of a
condition. -/
structure CondCodes where
  positive : List String
  negative : List String

/-- `conditionData[i]`: mode list, output list and restrictions of a
condition. -/
structure CondData where
  mode : List String
  out : List String
  restrictions : List Restriction

/-- The per-mode reduced records selected for one condition
(`patientRecordSubset[i]`). -/
abbrev ModeRecords := List (String × MedRecord)

/-- `patientRecordSubset`: condition name to its per-mode reduced records. -/
abbrev RecordSubset := List (String × ModeRecords)

/-- `set(medicalRecord)`: the codes the patient is associated with. -/
def codesOf (mr : MedRecord) : List String := mr.map (fun e => e.1)

/-- Python's `''.join(L)`. -/
def strConcat (L : List String) : String := L.foldr (· ++ ·) ""

/-- Python's `sep.join(L)`. -/
def strIntercalate (sep : String) : List String → String
  | [] => ""
  | [s] => s
  | s :: t :: rest => s ++ sep ++ strIntercalate sep (t :: rest)

/-- A Python list comprehension over fallible element computations,
left-to-right: `none` propagates the first raised exception. -/
def optionMapList {α β : Type} (f : α → Option β) : List α → Option (List β)
  | [] => some []
  | x :: xs =>
    match f x with
    | none => none
    | some y =>
      match optionMapList f xs with
      | none => none
      | some ys => some (y :: ys)

/-- One output column of `generate_patient_output` (the `for out in
conditionData[i]["Out"]` branches, lines 168-199), with `none` modelling a
raised exception.  The count branch embeds line 170 as written:
`[patientRecordSubset[i][k] for k in patientRecordSubset[i][mode]]` iterates
the code keys `k` of the mode's record but indexes the *mode-keyed* dict
`patientRecordSubset[i]` with them, raising `KeyError` (`none`) whenever a
code is not also a mode key; when every lookup succeeds, `len` of each
looked-up dict is its number of keys.  `max`/`min` raise `ValueError` on no
associations, `mean` raises `ZeroDivisionError`, and the first-code
value/date/code outputs raise `StopIteration`/`IndexError` on an empty
record or first code. -/
def cellOutput (caseModeRecords : ModeRecords) (modeRecord : MedRecord)
    (out : String) : Option String :=
  if out = "count" then
    match optionMapList (fun k => caseModeRecords.lookup k)
        (modeRecord.map (fun e => e.1)) with
    | none => none
    | some vs => some (toString ((vs.map (fun v => v.length)).sum))
  else if out = "max" then
    match pyMaxBy (fun a => a.val1) (allAssociations modeRecord) with
    | none => none
    | some m => some (fmt2 m.val1)
  else if out = "mean" then
    match allAssociations modeRecord with
    | [] => none
    | _ => some (fmt2 (((allAssociations modeRecord).map (fun a => a.val1)).sum /
        ((allAssociations modeRecord).map (fun a => a.val1)).length))
  else if out = "min" then
    match pyMinBy (fun a => a.val1) (allAssociations modeRecord) with
    | none => none
    | some m => some (fmt2 m.val1)
  else
    match modeRecord with
    | [] => none
    | e :: _ =>
      if out = "value" then
        match e.2 with
        | [] => none
        | a :: _ => some (fmt2 a.val1)
      else if out = "date" then
        match e.2 with
        | [] => none
        | a :: _ => some (formatDate a.date)
      else some e.1

/-- The columns one mode contributes to the row: a tab-prefixed cell per
output when the mode selected something, else one bare tab per output
(lines 165-202); `none` propagates a cell exception. -/
def modeBlock (caseModeRecords : ModeRecords) (outs : List String) (md : String) :
    Option String :=
  match caseModeRecords.lookup md with
  | some rec =>
    match optionMapList (fun out => cellOutput caseModeRecords rec out) outs with
    | none => none
    | some cells => some (strConcat (cells.map (fun cell => "\t" ++ cell)))
  | none => some (strConcat (outs.map (fun _ => "\t")))

/-- The columns one condition contributes to the row: per-mode blocks when
the patient has the condition, else one bare tab per (mode, output) pair
(lines 162-205); `none` propagates a cell exception. -/
def caseBlock (subset : RecordSubset) (cdata : String → CondData) (i : String) :
    Option String :=
  match subset.lookup i with
  | some caseModeRecords =>
    match optionMapList (fun md => modeBlock caseModeRecords (cdata i).out md)
        (cdata i).mode with
    | none => none
    | some blocks => some (strConcat blocks)
  | none =>
    some (strConcat ((cdata i).mode.map (fun _ =>
      strConcat ((cdata i).out.map (fun _ => "\t")))))

/-- `generate_patient_output(patientID, patientRecordSubset, conditions,
conditionData)`: the patient ID followed by every condition's column block
in condition order; `none` models an uncaught exception while computing a
cell, in which case `main` emits no row for the patient. -/
def generate_patient_output (patientID : String) (subset : RecordSubset)
    (conditions : List String) (cdata : String → CondData) : Option String :=
  match optionMapList (fun i => caseBlock subset cdata i) conditions with
  | none => none
  | some blocks => some (patientID ++ strConcat blocks)

/-- The header row (main, lines 91-96): `PatientID` then one
`{case}__MODE:{mode}__OUT:{out}` label per (case, mode, output) triple,
tab-separated, the per-case label groups joined by tabs. -/
def headerRow (conditions : List String) (cdata : String → CondData) : String :=
  "PatientID\t" ++ strIntercalate "\t" (conditions.map (fun i =>
    strIntercalate "\t" (((cdata i).mode.map (fun j =>
      (cdata i).out.map (fun k => i ++ "__MODE:" ++ j ++ "__OUT:" ++ k))).flatten)))

/-- The per-condition loop of `main` (lines 112-132): a condition enters the
patient's record subset only when the patient has at least one of its
positive indicator codes and none of its negative indicator codes, and only
with its non-empty per-mode selections; `none` models an uncaught exception
from `select_associations`. -/
def buildRecordSubset (mr : MedRecord) (mcc : String → CondCodes)
    (cdata : String → CondData) : List String → Option RecordSubset
  | [] => some []
  | i :: rest =>
    let patientPos := (codesOf mr).filter (fun c => c ∈ (mcc i).positive)
    let patientNeg := (codesOf mr).filter (fun c => c ∈ (mcc i).negative)
    if ¬ patientPos = [] ∧ patientNeg = [] then
      match select_associations mr patientPos (cdata i).restrictions (cdata i).mode with
      | none => none
      | some selected =>
        match buildRecordSubset mr mcc cdata rest with
        | none => none
        | some subRest =>
          if ¬ selected.filter (fun p => ¬ p.2 = []) = [] then
            some ((i, selected.filter (fun p => ¬ p.2 = [])) :: subRest)
          else some subRest
    else
      buildRecordSubset mr mcc cdata rest

/-- Tab count of a string. -/
def countTabs (s : String) : Nat := s.data.count '\t'

/-- The number of tab-separated fields of a tab-delimited row: one more than
its tab count. -/
def numFields (s : String) : Nat := countTabs s + 1

/-- A blank column block: `n` empty fields, each opened by a tab. -/
def blankBlock (n : Nat) : String := strConcat (List.replicate n "\t")

theorem countTabs_append (a b : String) :
    countTabs (a ++ b) = countTabs a + countTabs b := by
  simp [countTabs, String.data_append, List.count_append]

theorem strConcat_countTabs (L : List String) :
    countTabs (strConcat L) = (L.map countTabs).sum := by
  induction L with
  | nil => rfl
  | cons s rest ih =>
      show countTabs (s ++ strConcat rest) = _
      rw [countTabs_append, ih]
      rfl

theorem strConcat_append (L1 L2 : List String) :
    strConcat (L1 ++ L2) = strConcat L1 ++ strConcat L2 := by
  induction L1 with
  | nil =>
      show strConcat L2 = "" ++ strConcat L2
      cases strConcat L2
      rfl
  | cons s rest ih =>
      show s ++ strConcat (rest ++ L2) = (s ++ strConcat rest) ++ strConcat L2
      rw [ih, String.append_assoc]

theorem map_const_eq_replicate {α β : Type} (l : List α) (b : β) :
    l.map (fun _ => b) = List.replicate l.length b := by
  induction l with
  | nil => rfl
  | cons x xs ih => simp [List.replicate, ih]

theorem sum_map_const {α : Type} (l : List α) (c : Nat) :
    (l.map (fun _ => c)).sum = l.length * c := by
  rw [map_const_eq_replicate]
  simp [List.sum_replicate, Nat.smul_one_eq_cast]

theorem sum_map_add_one {α : Type} (l : List α) (f : α → Nat) :
    (l.map (fun a => f a + 1)).sum = (l.map f).sum + l.length := by
  induction l with
  | nil => rfl
  | cons x xs ih =>
      simp only [List.map_cons, List.sum_cons, ih, List.length_cons]
      omega

theorem blankBlock_add (a b : Nat) :
    blankBlock (a + b) = blankBlock a ++ blankBlock b := by
  rw [blankBlock, List.replicate_add, strConcat_append]
  rfl

theorem blankBlock_mul (m o : Nat) :
    strConcat (List.replicate m (blankBlock o)) = blankBlock (m * o) := by
  induction m with
  | zero => rw [Nat.zero_mul]; rfl
  | succ k ih =>
      show blankBlock o ++ strConcat (List.replicate k (blankBlock o)) = _
      rw [ih, Nat.succ_mul, Nat.add_comm (k * o) o, blankBlock_add]

theorem caseBlock_of_lookup_none {subset : RecordSubset} {cdata : String → CondData}
    {i : String} (h : subset.lookup i = none) :
    caseBlock subset cdata i =
      some (blankBlock ((cdata i).mode.length * (cdata i).out.length)) := by
  rw [caseBlock, h]
  have hinner : strConcat ((cdata i).out.map (fun _ => "\t")) =
      blankBlock (cdata i).out.length := by
    rw [map_const_eq_replicate]
    rfl
  rw [hinner, map_const_eq_replicate, blankBlock_mul]

theorem buildRecordSubset_lookup_none
    (mr : MedRecord) (mcc : String → CondCodes) (cdata : String → CondData) (i : String)
    (hneg : ∃ c ∈ codesOf mr, c ∈ (mcc i).negative) :
    ∀ (conditions : List String) (subset : RecordSubset),
      buildRecordSubset mr mcc cdata conditions = some subset →
      subset.lookup i = none := by
  intro conditions
  induction conditions with
  | nil =>
      intro subset hbuild
      simp only [buildRecordSubset] at hbuild
      injection hbuild with h
      rw [← h]
      rfl
  | cons j rest ih =>
      intro subset hbuild
      simp only [buildRecordSubset] at hbuild
      split at hbuild
      · have hji : ¬ j = i := by
          rename_i hgate
          intro hji
          subst hji
          obtain ⟨c, hc1, hc2⟩ := hneg
          have hcmem : c ∈ (codesOf mr).filter (fun c => decide (c ∈ (mcc j).negative)) :=
            List.mem_filter.mpr ⟨hc1, by simpa using hc2⟩
          rw [hgate.2] at hcmem
          cases hcmem
        split at hbuild
        · exact Option.noConfusion hbuild
        · split at hbuild
          · exact Option.noConfusion hbuild
          · rename_i subRest hrec
            split at hbuild
            · injection hbuild with h
              rw [← h]
              have hij : (i == j) = false := by
                simp only [beq_eq_false_iff_ne, ne_eq]
                exact fun he => hji he.symm
              simp only [List.lookup, hij]
              exact ih _ hrec
            · injection hbuild with h
              rw [← h]
              exact ih _ hrec
      · exact ih _ hbuild

/-- C3: a patient whose medical record contains at least one positive and at
least one negative indicator code of a case fails `main`'s gate for that
case regardless of its restrictions, modes and outputs: the case never
enters the patient's record subset, and the case's entire column block in
the output row is computed without raising and is the blank block (one empty
tab-separated field per (mode, output) pair). -/
theorem negative_code_veto_blank_block
    (mr : MedRecord) (mcc : String → CondCodes) (cdata : String → CondData)
    (conditions : List String) (subset : RecordSubset) (i : String)
    (hbuild : buildRecordSubset mr mcc cdata conditions = some subset)
    (_hpos : ∃ c ∈ codesOf mr, c ∈ (mcc i).positive)
    (hneg : ∃ c ∈ codesOf mr, c ∈ (mcc i).negative) :
    subset.lookup i = none ∧
    caseBlock subset cdata i =
      some (blankBlock ((cdata i).mode.length * (cdata i).out.length)) := by
  have h1 := buildRecordSubset_lookup_none mr mcc cdata i hneg conditions subset hbuild
  exact ⟨h1, caseBlock_of_lookup_none h1⟩

/-- A record holding both the positive code "A" and the negative code "N". -/
def c3Mr : MedRecord := [("A", [⟨0, 0, 0, ""⟩]), ("N", [⟨1, 0, 0, ""⟩])]

/-- Indicator codes: "A" positive, "N" negative, for every condition. -/
def c3Mcc : String → CondCodes := fun _ => ⟨["A"], ["N"]⟩

/-- Condition data: mode `all`, output `count`, no restrictions. -/
def c3Cdata : String → CondData := fun _ => ⟨["all"], ["count"], []⟩

/-- C3 witness: the veto instantiated at a concrete patient holding both a
positive and a negative code. -/
theorem negative_code_veto_blank_block_witness :
    List.lookup "Cond" ([] : RecordSubset) = none ∧
    caseBlock [] c3Cdata "Cond" =
      some (blankBlock ((c3Cdata "Cond").mode.length * (c3Cdata "Cond").out.length)) :=
  negative_code_veto_blank_block c3Mr c3Mcc c3Cdata ["Cond"] [] "Cond" rfl
    ⟨"A", by decide, by decide⟩ ⟨"N", by decide, by decide⟩

theorem countTabs_tab : countTabs "\t" = 1 := by decide

theorem countTabs_blankBlock (n : Nat) : countTabs (blankBlock n) = n := by
  rw [blankBlock, strConcat_countTabs, List.map_replicate, countTabs_tab]
  simp

theorem strIntercalate_countTabs :
    ∀ L : List String, L ≠ [] →
      countTabs (strIntercalate "\t" L) + 1 = (L.map countTabs).sum + L.length := by
  intro L
  induction L with
  | nil => intro h; exact absurd rfl h
  | cons s rest ih =>
      intro _
      cases rest with
      | nil => simp [strIntercalate]
      | cons t rs =>
          have ih' := ih (by simp)
          show countTabs (s ++ "\t" ++ strIntercalate "\t" (t :: rs)) + 1 = _
          rw [countTabs_append, countTabs_append]
          simp only [List.map_cons, List.sum_cons, List.length_cons] at *
          have ht : countTabs "\t" = 1 := rfl
          omega

theorem optionMapList_sum_map {α β : Type} (f : α → Option β) (g : β → Nat)
    (h : α → Nat) :
    ∀ (l : List α) (r : List β), optionMapList f l = some r →
      (∀ x ∈ l, ∀ y, f x = some y → g y = h x) →
      (r.map g).sum = (l.map h).sum := by
  intro l
  induction l with
  | nil =>
      intro r hr _
      simp only [optionMapList] at hr
      injection hr with h'
      rw [← h']
      rfl
  | cons x xs ih =>
      intro r hr hpt
      simp only [optionMapList] at hr
      split at hr
      · exact Option.noConfusion hr
      · rename_i y hfx
        split at hr
        · exact Option.noConfusion hr
        · rename_i ys hrec
          injection hr with h'
          rw [← h']
          simp only [List.map_cons, List.sum_cons]
          rw [hpt x (List.mem_cons_self _ _) y hfx,
            ih ys hrec (fun x' hx' y' hy' => hpt x' (List.mem_cons_of_mem _ hx') y' hy')]

theorem countTabs_modeBlock (cmr : ModeRecords) (outs : List String) (md : String)
    (hcell : ∀ rec, cmr.lookup md = some rec →
      ∀ out ∈ outs, ∀ cell, cellOutput cmr rec out = some cell → countTabs cell = 0) :
    ∀ block, modeBlock cmr outs md = some block → countTabs block = outs.length := by
  intro block hblock
  rw [modeBlock] at hblock
  split at hblock
  · rename_i rec hlk
    split at hblock
    · exact Option.noConfusion hblock
    · rename_i cells hcl
      injection hblock with h
      rw [← h, strConcat_countTabs, List.map_map]
      have hsum := optionMapList_sum_map (fun out => cellOutput cmr rec out)
        (countTabs ∘ fun cell => "\t" ++ cell) (fun _ => 1) outs cells hcl
        (fun out hout cell hc => by
          show countTabs ("\t" ++ cell) = 1
          rw [countTabs_append, hcell rec hlk out hout cell hc, countTabs_tab])
      rw [hsum, sum_map_const, Nat.mul_one]
  · injection hblock with h
    rw [← h]
    calc countTabs (strConcat (outs.map (fun _ => "\t")))
        = ((outs.map (fun _ => "\t")).map countTabs).sum := strConcat_countTabs _
      _ = (outs.map (fun _ => 1)).sum := by
            rw [List.map_map]
            exact congrArg List.sum (List.map_congr_left (fun o _ => countTabs_tab))
      _ = outs.length * 1 := sum_map_const _ _
      _ = outs.length := Nat.mul_one _

theorem countTabs_caseBlock (subset : RecordSubset) (cdata : String → CondData) (i : String)
    (hcells : ∀ cmr, subset.lookup i = some cmr →
      ∀ md ∈ (cdata i).mode, ∀ rec, cmr.lookup md = some rec →
      ∀ out ∈ (cdata i).out, ∀ cell, cellOutput cmr rec out = some cell →
        countTabs cell = 0) :
    ∀ block, caseBlock subset cdata i = some block →
      countTabs block = (cdata i).mode.length * (cdata i).out.length := by
  intro block hblock
  rw [caseBlock] at hblock
  split at hblock
  · rename_i cmr hlk
    split at hblock
    · exact Option.noConfusion hblock
    · rename_i blocks hmb
      injection hblock with h
      rw [← h, strConcat_countTabs]
      have hsum := optionMapList_sum_map (fun md => modeBlock cmr (cdata i).out md)
        countTabs (fun _ => (cdata i).out.length) (cdata i).mode blocks hmb
        (fun md hmd b hb => countTabs_modeBlock cmr (cdata i).out md
          (fun rec hrec out hout cell hc => hcells cmr hlk md hmd rec hrec out hout cell hc)
          b hb)
      rw [hsum, sum_map_const]
  · injection hblock with h
    rw [← h]
    have hinner : strConcat ((cdata i).out.map (fun _ => "\t")) =
        blankBlock (cdata i).out.length := by
      rw [map_const_eq_replicate]
      rfl
    rw [hinner, map_const_eq_replicate, blankBlock_mul, countTabs_blankBlock]

/-- C10 counterexample: with no case definitions at all, the driver emits the
row "P1" (one tab-separated field) while the header row (`"PatientID\t"`
followed by an empty join) has two — the row-width invariant as claimed
fails for an empty rule set. -/
theorem row_width_cex :
    generate_patient_output "P1" [] [] c3Cdata = some "P1" ∧
    numFields "P1" = 1 ∧
    numFields (headerRow [] c3Cdata) = 2 ∧
    numFields "P1" ≠ numFields (headerRow [] c3Cdata) := by
  refine ⟨by decide, by decide, by decide, by decide⟩

/-- C10 (amended): for a non-empty rule set in which every case has at least
one mode and at least one output (the parser's defaults guarantee both), and
whose names and successfully emitted cells contain no tab character, every
data row the driver actually emits (`generate_patient_output` can instead
raise — e.g. the count branch's `patientRecordSubset[i][k]` indexing — in
which case no row is written) has exactly as many tab-separated fields as
the header row: one PatientID field plus one field per (case, mode, output)
triple in header order, with empty fields for every triple whose case does
not apply or whose mode selected nothing. -/
theorem row_width_matches_header
    (patientID : String) (subset : RecordSubset) (conditions : List String)
    (cdata : String → CondData)
    (hconds : conditions ≠ [])
    (hmo : ∀ i ∈ conditions, (cdata i).mode ≠ [] ∧ (cdata i).out ≠ [])
    (hpid : countTabs patientID = 0)
    (hlabels : ∀ i ∈ conditions, countTabs i = 0 ∧
      (∀ m ∈ (cdata i).mode, countTabs m = 0) ∧
      (∀ o ∈ (cdata i).out, countTabs o = 0))
    (hcells : ∀ i ∈ conditions, ∀ cmr, subset.lookup i = some cmr →
      ∀ md ∈ (cdata i).mode, ∀ rec, cmr.lookup md = some rec →
      ∀ out ∈ (cdata i).out, ∀ cell, cellOutput cmr rec out = some cell →
        countTabs cell = 0) :
    ∀ row, generate_patient_output patientID subset conditions cdata = some row →
      numFields row = numFields (headerRow conditions cdata) := by
  intro row hrowgen
  rw [generate_patient_output] at hrowgen
  split at hrowgen
  · exact Option.noConfusion hrowgen
  · rename_i blocks hblocks
    injection hrowgen with hb
    have hrow : countTabs row =
        (conditions.map (fun i => (cdata i).mode.length * (cdata i).out.length)).sum := by
      rw [← hb, countTabs_append, hpid, strConcat_countTabs, Nat.zero_add]
      exact optionMapList_sum_map (fun i => caseBlock subset cdata i) countTabs
        (fun i => (cdata i).mode.length * (cdata i).out.length) conditions blocks hblocks
        (fun i hi b hb2 => countTabs_caseBlock subset cdata i (hcells i hi) b hb2)
    have hlabellen : ∀ i ∈ conditions,
        (((cdata i).mode.map (fun j =>
          (cdata i).out.map (fun k => i ++ "__MODE:" ++ j ++ "__OUT:" ++ k))).flatten).length =
        (cdata i).mode.length * (cdata i).out.length := by
      intro i _
      rw [List.length_flatten, List.map_map]
      calc ((cdata i).mode.map (List.length ∘ fun j =>
              (cdata i).out.map (fun k => i ++ "__MODE:" ++ j ++ "__OUT:" ++ k))).sum
          = ((cdata i).mode.map (fun _ => (cdata i).out.length)).sum := by
            exact congrArg List.sum (List.map_congr_left (fun j _ => List.length_map _ _))
        _ = (cdata i).mode.length * (cdata i).out.length := sum_map_const _ _
    have hlabeltabs : ∀ i ∈ conditions,
        ∀ s ∈ ((cdata i).mode.map (fun j =>
          (cdata i).out.map (fun k => i ++ "__MODE:" ++ j ++ "__OUT:" ++ k))).flatten,
        countTabs s = 0 := by
      intro i hi s hs
      simp only [List.mem_flatten, List.mem_map] at hs
      obtain ⟨l, ⟨j, hj, rfl⟩, hs⟩ := hs
      obtain ⟨k, hk, rfl⟩ := List.mem_map.mp hs
      obtain ⟨hi0, hm0, ho0⟩ := hlabels i hi
      rw [countTabs_append, countTabs_append, countTabs_append, countTabs_append, hi0,
        hm0 j hj, ho0 k hk]
      decide
    have hblocktabs : ∀ i ∈ conditions,
        countTabs (strIntercalate "\t" (((cdata i).mode.map (fun j =>
          (cdata i).out.map (fun k => i ++ "__MODE:" ++ j ++ "__OUT:" ++ k))).flatten)) + 1 =
        (cdata i).mode.length * (cdata i).out.length := by
      intro i hi
      obtain ⟨hm, ho⟩ := hmo i hi
      have hprod : 0 < (cdata i).mode.length * (cdata i).out.length :=
        Nat.mul_pos (List.length_pos.mpr hm) (List.length_pos.mpr ho)
      have hne : ((cdata i).mode.map (fun j =>
          (cdata i).out.map (fun k => i ++ "__MODE:" ++ j ++ "__OUT:" ++ k))).flatten ≠ [] := by
        intro hcontra
        have := hlabellen i hi
        rw [hcontra] at this
        simp only [List.length_nil] at this
        omega
      have h := strIntercalate_countTabs _ hne
      have hzero : ((((cdata i).mode.map (fun j =>
          (cdata i).out.map (fun k => i ++ "__MODE:" ++ j ++ "__OUT:" ++ k))).flatten).map
            countTabs).sum = 0 := by
        apply List.sum_eq_zero
        intro x hx
        obtain ⟨s, hs, rfl⟩ := List.mem_map.mp hx
        exact hlabeltabs i hi s hs
      rw [hzero, hlabellen i hi] at h
      omega
    have hpt : countTabs "PatientID\t" = 1 := by decide
    have hblocksne : conditions.map (fun i => strIntercalate "\t" (((cdata i).mode.map (fun j =>
        (cdata i).out.map (fun k => i ++ "__MODE:" ++ j ++ "__OUT:" ++ k))).flatten)) ≠ [] := by
      simp [hconds]
    have hI := strIntercalate_countTabs _ hblocksne
    rw [List.map_map, List.length_map] at hI
    have hsum : (conditions.map (countTabs ∘ fun i => strIntercalate "\t"
        (((cdata i).mode.map (fun j =>
          (cdata i).out.map (fun k => i ++ "__MODE:" ++ j ++ "__OUT:" ++ k))).flatten))).sum
        + conditions.length =
        (conditions.map (fun i => (cdata i).mode.length * (cdata i).out.length)).sum := by
      rw [← sum_map_add_one]
      exact congrArg List.sum (List.map_congr_left (fun i hi => hblocktabs i hi))
    have hheadtabs : countTabs (headerRow conditions cdata) =
        1 + countTabs (strIntercalate "\t" (conditions.map (fun i => strIntercalate "\t"
          (((cdata i).mode.map (fun j =>
            (cdata i).out.map (fun k => i ++ "__MODE:" ++ j ++ "__OUT:" ++ k))).flatten)))) := by
      rw [headerRow, countTabs_append, hpt]
    rw [numFields, numFields, hrow, hheadtabs]
    omega

/-- Condition data for the C10 witness: mode `all`, output `max`, no
restrictions. -/
def c10Cdata : String → CondData := fun _ => ⟨["all"], ["max"], []⟩

/-- A record subset in which the case applies and its `all`-mode record holds
one association with Val1 = 2, so the `max` cell succeeds with "2.00". -/
def c10Subset : RecordSubset := [("Cond", [("all", [("A", [⟨0, 2, 0, ""⟩])])])]

/-- C10 witness: the driver emits the row `P1\t2.00` for the concrete
one-case rule set, and the amended invariant applied to that emitted row
gives it exactly as many fields as the header. -/
theorem row_width_matches_header_witness :
    generate_patient_output "P1" c10Subset ["Cond"] c10Cdata = some "P1\t2.00" ∧
    numFields "P1\t2.00" = numFields (headerRow ["Cond"] c10Cdata) := by
  constructor
  · decide
  · exact row_width_matches_header "P1" c10Subset ["Cond"] c10Cdata
      (by decide) (by decide) (by decide) (by decide)
      (by
        intro i hi cmr hcmr md hmd rec hrec out hout cell hc
        rcases List.mem_singleton.mp hi with rfl
        have hcmr2 : cmr = [("all", [("A", [(⟨0, 2, 0, ""⟩ : Assoc)])])] := by
          have he : List.lookup "Cond" c10Subset =
              some [("all", [("A", [(⟨0, 2, 0, ""⟩ : Assoc)])])] := rfl
          rw [he] at hcmr
          injection hcmr with h2
          exact h2.symm
        subst hcmr2
        rcases List.mem_singleton.mp hmd with rfl
        have hrec2 : rec = [("A", [(⟨0, 2, 0, ""⟩ : Assoc)])] := by
          have he : List.lookup "all" [("all", [("A", [(⟨0, 2, 0, ""⟩ : Assoc)])])] =
              some [("A", [(⟨0, 2, 0, ""⟩ : Assoc)])] := rfl
          rw [he] at hrec
          injection hrec with h2
          exact h2.symm
        subst hrec2
        rcases List.mem_singleton.mp hout with rfl
        have hc2 : cell = "2.00" := by
          have he : cellOutput [("all", [("A", [(⟨0, 2, 0, ""⟩ : Assoc)])])]
              [("A", [(⟨0, 2, 0, ""⟩ : Assoc)])] "max" = some "2.00" := by decide
          rw [he] at hc
          injection hc with h2
          exact h2.symm
        subst hc2
        decide)
      "P1\t2.00" (by decide)
